import Mathlib

/-!
Verification development for the charter search/filter/sort engine of the
Charters repository (the `filteredCharters` memo of
`src/pages/StakeholderMapsPage.tsx`, lines 58-128).

The engine is shallowly embedded: JavaScript strings are Lean `String`s
(`structure String where data : List Char`), JS `toLowerCase`, `includes`
and `trim` are modelled character-wise, `localeCompare` is modelled as the
code-point comparison returning -1/0/1 (locale tailoring is abstracted away),
timestamps (`new Date(x).getTime()`) are `Int`, and the stable
`Array.prototype.sort` mandated by ECMAScript is modelled as a stable
insertion sort on lists.
-/

namespace Charters

/-- Owner / stakeholder profile record (`profiles` with `first_name`,
`last_name` in the source). -/
structure Profile where
  first_name : String
  last_name : String
deriving DecidableEq, Repr

/-- A stakeholder entry of a charter, as consumed by the engine:
`email`, `department`, `role` (enums as strings) and an optional profile. -/
structure Stakeholder where
  email : String
  department : String
  role : String
  profiles : Option Profile
deriving DecidableEq, Repr

/-- A charter summary as consumed by the engine: title, optional
description, creation timestamp (`getTime()` of `created_at`, an `Int`),
optional owner profile (`charter.profiles`) and the stakeholder list.
`id`, `user_id`, `isOwner` are carried along but unused by the engine. -/
structure CharterSummary where
  id : String
  title : String
  description : Option String
  created_at : Int
  profiles : Option Profile
  user_id : String
  isOwner : Bool
  stakeholders : List Stakeholder
deriving DecidableEq, Repr

/-- The sort keys of the page (`sortBy` state). -/
inductive SortKey where
  | title
  | steward
  | date
deriving DecidableEq, Repr

/-- The sort directions of the page (`sortDirection` state). -/
inductive SortDirection where
  | asc
  | desc
deriving DecidableEq, Repr

/-- The query configuration held by the host page: `search`, `sortBy`,
`sortDirection`, `departmentFilter` (empty string = unset, matching the
JS truthiness tests `if (search)` / `if (departmentFilter)`). -/
structure QueryConfig where
  search : String
  departmentFilter : String
  sortBy : SortKey
  sortDirection : SortDirection
deriving DecidableEq, Repr

/-- JS `String.prototype.toLowerCase`, modelled character-wise with
`Char.toLower`. -/
def strToLower (s : String) : String :=
  String.mk (s.data.map Char.toLower)

/-- Whether `needle` occurs as a contiguous sublist of the second argument
(helper for JS `String.prototype.includes`). -/
def containsSub (needle : List Char) : List Char → Bool
  | [] => needle.isPrefixOf ([] : List Char)
  | c :: t => needle.isPrefixOf (c :: t) || containsSub needle t

/-- JS `hay.includes(needle)` on strings. -/
def strIncludes (hay needle : String) : Bool :=
  containsSub needle.data hay.data

/-- JS `String.prototype.trim`: strip whitespace from both ends. -/
def jsTrim (s : String) : String :=
  String.mk (((s.data.dropWhile Char.isWhitespace).reverse.dropWhile
    Char.isWhitespace).reverse)

/-- Lexicographic three-way comparison of character lists (helper for
`localeCompare`). -/
def listCompare : List Char → List Char → Int
  | [], [] => 0
  | [], _ :: _ => -1
  | _ :: _, [] => 1
  | a :: as, b :: bs =>
    if a < b then -1 else if b < a then 1 else listCompare as bs

/-- Model of JS `a.localeCompare(b)`: negative when `a` orders before `b`,
positive when after, zero on equality. Locale tailoring is abstracted to
the code-point (dictionary) order on strings, returning -1/0/1. -/
def localeCompare (a b : String) : Int :=
  listCompare a.data b.data

/-- JS falsy collapse of an optional value under a boolean test: models
both `o?.test()` and `o && test(o)`, which yield a falsy value when `o` is
`null`/`undefined`. -/
def optMatch {β : Type} (o : Option β) (f : β → Bool) : Bool :=
  match o with
  | some x => f x
  | none => false

theorem optMatch_eq_true {β : Type} (o : Option β) (f : β → Bool) :
    optMatch o f = true ↔ ∃ x, o = some x ∧ f x = true := by
  cases o <;> simp [optMatch]

/-- Search predicate of the engine (body of the `filtered.filter` closure
at lines 66-91 of the source); `searchLower` is the lowercased search text.
The optional accesses `charter.description?.`, `s.profiles && ...`,
`charter.profiles && ...` are rendered with `optMatch`. -/
def charterMatchesSearch (searchLower : String) (charter : CharterSummary) : Bool :=
  let titleMatch := strIncludes (strToLower charter.title) searchLower
  let descriptionMatch :=
    optMatch charter.description fun d => strIncludes (strToLower d) searchLower
  let stakeholderMatch := charter.stakeholders.any fun s =>
    let emailMatch := strIncludes (strToLower s.email) searchLower
    let departmentMatch := strIncludes (strToLower s.department) searchLower
    let roleMatch := strIncludes (strToLower s.role) searchLower
    let nameMatch := optMatch s.profiles fun p =>
      strIncludes (strToLower (p.first_name ++ " " ++ p.last_name)) searchLower
    emailMatch || departmentMatch || nameMatch || roleMatch
  let stewardMatch := optMatch charter.profiles fun p =>
    strIncludes (strToLower (p.first_name ++ " " ++ p.last_name)) searchLower
  titleMatch || descriptionMatch || stakeholderMatch || stewardMatch

/-- Step 1 of the engine: the search filter, applied only when `search` is
non-empty (JS truthiness of the string state). -/
def searchStep (search : String) (cs : List CharterSummary) : List CharterSummary :=
  if search ≠ "" then cs.filter (charterMatchesSearch (strToLower search)) else cs

/-- Step 2 of the engine: the department filter, applied only when
`departmentFilter` is non-empty; retains a charter when some stakeholder's
department strictly equals the filter (lines 95-99). -/
def departmentStep (departmentFilter : String) (cs : List CharterSummary) :
    List CharterSummary :=
  if departmentFilter ≠ "" then
    cs.filter fun charter =>
      charter.stakeholders.any fun s => s.department == departmentFilter
  else cs

/-- The steward display name used by the `steward` sort branch:
`"{first_name} {last_name}".trim()` of the owner profile, empty string when
the profile is absent (lines 110-115). -/
def stewardName (charter : CharterSummary) : String :=
  match charter.profiles with
  | some p => jsTrim (p.first_name ++ " " ++ p.last_name)
  | none => ""

/-- The `switch (sortBy)` of the comparator (lines 105-122): base comparison
value before the direction is applied. -/
def compareCharters (sortBy : SortKey) (a b : CharterSummary) : Int :=
  match sortBy with
  | SortKey.title => localeCompare a.title b.title
  | SortKey.steward => localeCompare (stewardName a) (stewardName b)
  | SortKey.date => b.created_at - a.created_at

/-- The full comparator passed to `filtered.sort` (lines 102-125):
the base comparison, negated when the direction is `desc` (line 124). -/
def comparator (cfg : QueryConfig) (a b : CharterSummary) : Int :=
  let comparison := compareCharters cfg.sortBy a b
  match cfg.sortDirection with
  | SortDirection.asc => comparison
  | SortDirection.desc => -comparison

/-- Insert an element into a list already arranged by the comparator,
keeping it before the first element it compares `≤ 0` against. -/
def insertCmp {α : Type} (cmp : α → α → Int) (x : α) : List α → List α
  | [] => [x]
  | y :: ys => if cmp x y ≤ 0 then x :: y :: ys else y :: insertCmp cmp x ys

/-- Stable sort by an integer comparator, modelling the stable
`Array.prototype.sort` required by ECMAScript: a stable insertion sort.
For the consistent comparators the engine uses, every stable sort produces
this same output. -/
def sortCmp {α : Type} (cmp : α → α → Int) : List α → List α
  | [] => []
  | x :: xs => insertCmp cmp x (sortCmp cmp xs)

/-- The filtered (not yet sorted) charter list: search step then department
step, as the engine computes `filtered` before line 102. -/
def filteredInput (cs : List CharterSummary) (cfg : QueryConfig) :
    List CharterSummary :=
  departmentStep cfg.departmentFilter (searchStep cfg.search cs)

/-- The whole engine (`filteredCharters`, lines 58-128): `none` models the
absent (`null`/`undefined`) charters input, guarded by `if (!charters)
return []` at line 59; otherwise filter then sort. -/
def filterAndSort (charters : Option (List CharterSummary)) (cfg : QueryConfig) :
    List CharterSummary :=
  match charters with
  | none => []
  | some cs => sortCmp (comparator cfg) (filteredInput cs cfg)

/-- A list paired with the position each element had (starting at `n`);
used to state stability of the sort. -/
def withIdx {α : Type} : Nat → List α → List (Nat × α)
  | _, [] => []
  | n, x :: xs => (n, x) :: withIdx (n + 1) xs

section SortLemmas

variable {α β : Type} (cmp : α → α → Int)

theorem insertCmp_perm (x : α) (l : List α) :
    List.Perm (insertCmp cmp x l) (x :: l) := by
  induction l with
  | nil => exact List.Perm.refl _
  | cons y ys ih =>
    by_cases h : cmp x y ≤ 0
    · simp [insertCmp, h]
    · simp only [insertCmp, if_neg h]
      exact (ih.cons y).trans (List.Perm.swap x y ys)

theorem sortCmp_perm (l : List α) : List.Perm (sortCmp cmp l) l := by
  induction l with
  | nil => exact List.Perm.refl _
  | cons x xs ih => exact (insertCmp_perm cmp x (sortCmp cmp xs)).trans (ih.cons x)

theorem mem_sortCmp {a : α} {l : List α} : a ∈ sortCmp cmp l ↔ a ∈ l :=
  (sortCmp_perm cmp l).mem_iff

theorem mem_insertCmp {a x : α} {l : List α} :
    a ∈ insertCmp cmp x l ↔ a = x ∨ a ∈ l := by
  rw [(insertCmp_perm cmp x l).mem_iff, List.mem_cons]

theorem pairwise_insertCmp
    (htot : ∀ a b, cmp a b ≤ 0 ∨ cmp b a ≤ 0)
    (htrans : ∀ a b c, cmp a b ≤ 0 → cmp b c ≤ 0 → cmp a c ≤ 0)
    (x : α) {l : List α} (hl : l.Pairwise fun a b => cmp a b ≤ 0) :
    (insertCmp cmp x l).Pairwise fun a b => cmp a b ≤ 0 := by
  induction l with
  | nil => simp [insertCmp]
  | cons y ys ih =>
    rw [List.pairwise_cons] at hl
    obtain ⟨hy, hys⟩ := hl
    by_cases h : cmp x y ≤ 0
    · simp only [insertCmp, if_pos h]
      rw [List.pairwise_cons]
      refine ⟨?_, by rw [List.pairwise_cons]; exact ⟨hy, hys⟩⟩
      intro z hz
      rcases List.mem_cons.mp hz with rfl | hz
      · exact h
      · exact htrans x y z h (hy z hz)
    · simp only [insertCmp, if_neg h]
      rw [List.pairwise_cons]
      refine ⟨?_, ih hys⟩
      intro z hz
      rcases (mem_insertCmp cmp).mp hz with rfl | hz
      · rcases htot z y with h' | h'
        · exact absurd h' h
        · exact h'
      · exact hy z hz

theorem sortCmp_pairwise
    (htot : ∀ a b, cmp a b ≤ 0 ∨ cmp b a ≤ 0)
    (htrans : ∀ a b c, cmp a b ≤ 0 → cmp b c ≤ 0 → cmp a c ≤ 0)
    (l : List α) : (sortCmp cmp l).Pairwise fun a b => cmp a b ≤ 0 := by
  induction l with
  | nil => simp [sortCmp]
  | cons x xs ih => exact pairwise_insertCmp cmp htot htrans x ih

theorem sortCmp_eq_self {l : List α} (hl : l.Pairwise fun a b => cmp a b ≤ 0) :
    sortCmp cmp l = l := by
  induction l with
  | nil => rfl
  | cons x xs ih =>
    rw [List.pairwise_cons] at hl
    obtain ⟨hx, hxs⟩ := hl
    show insertCmp cmp x (sortCmp cmp xs) = x :: xs
    rw [ih hxs]
    cases xs with
    | nil => rfl
    | cons y ys => simp [insertCmp, hx y (List.mem_cons_self y ys)]

theorem map_insertCmp (f : β → α) (x : β) (l : List β) :
    (insertCmp (fun a b => cmp (f a) (f b)) x l).map f =
      insertCmp cmp (f x) (l.map f) := by
  induction l with
  | nil => rfl
  | cons y ys ih =>
    by_cases h : cmp (f x) (f y) ≤ 0
    · simp [insertCmp, h]
    · simp [insertCmp, h, ih]

theorem map_sortCmp (f : β → α) (l : List β) :
    (sortCmp (fun a b => cmp (f a) (f b)) l).map f = sortCmp cmp (l.map f) := by
  induction l with
  | nil => rfl
  | cons x xs ih =>
    show (insertCmp (fun a b => cmp (f a) (f b)) x _).map f = _
    rw [map_insertCmp, ih]
    rfl

theorem insertCmp_stable
    (hsym : ∀ a b, cmp a b = 0 → cmp b a = 0)
    (x : Nat × α) {l : List (Nat × α)}
    (hx : ∀ y ∈ l, x.1 < y.1)
    (hl : l.Pairwise fun a b => cmp a.2 b.2 = 0 → a.1 < b.1) :
    (insertCmp (fun a b => cmp a.2 b.2) x l).Pairwise
      fun a b => cmp a.2 b.2 = 0 → a.1 < b.1 := by
  induction l with
  | nil => simp [insertCmp]
  | cons y ys ih =>
    rw [List.pairwise_cons] at hl
    obtain ⟨hy, hys⟩ := hl
    by_cases h : cmp x.2 y.2 ≤ 0
    · simp only [insertCmp, if_pos h]
      rw [List.pairwise_cons]
      refine ⟨?_, by rw [List.pairwise_cons]; exact ⟨hy, hys⟩⟩
      intro z hz _
      exact hx z hz
    · simp only [insertCmp, if_neg h]
      rw [List.pairwise_cons]
      refine ⟨?_, ih (fun y hy => hx y (List.mem_cons_of_mem _ hy)) hys⟩
      intro z hz hzero
      rcases (mem_insertCmp _).mp hz with rfl | hz
      · exact absurd (le_of_eq (hsym _ _ hzero)) h
      · exact hy z hz hzero

theorem sortCmp_stable
    (hsym : ∀ a b, cmp a b = 0 → cmp b a = 0)
    {l : List (Nat × α)} (hidx : l.Pairwise fun a b => a.1 < b.1) :
    (sortCmp (fun a b => cmp a.2 b.2) l).Pairwise
      fun a b => cmp a.2 b.2 = 0 → a.1 < b.1 := by
  induction l with
  | nil => simp [sortCmp]
  | cons x xs ih =>
    rw [List.pairwise_cons] at hidx
    obtain ⟨hx, hxs⟩ := hidx
    show (insertCmp (fun a b => cmp a.2 b.2) x _).Pairwise _
    refine insertCmp_stable cmp hsym x ?_ (ih hxs)
    intro y hy
    exact hx y ((mem_sortCmp _).mp hy)

theorem mem_withIdx_fst {n : Nat} {l : List α} {y : Nat × α}
    (hy : y ∈ withIdx n l) : n ≤ y.1 := by
  induction l generalizing n with
  | nil => simp [withIdx] at hy
  | cons x xs ih =>
    rcases List.mem_cons.mp hy with rfl | hy
    · exact Nat.le_refl n
    · exact Nat.le_of_succ_le (ih hy)

theorem withIdx_pairwise (n : Nat) (l : List α) :
    (withIdx n l).Pairwise fun a b => a.1 < b.1 := by
  induction l generalizing n with
  | nil => simp [withIdx]
  | cons x xs ih =>
    rw [withIdx, List.pairwise_cons]
    exact ⟨fun y hy => Nat.lt_of_succ_le (mem_withIdx_fst hy), ih (n + 1)⟩

theorem withIdx_map_snd (n : Nat) (l : List α) :
    (withIdx n l).map Prod.snd = l := by
  induction l generalizing n with
  | nil => rfl
  | cons x xs ih => rw [withIdx, List.map_cons, ih]

end SortLemmas

section ComparatorLemmas

theorem listCompare_antisymm (a b : List Char) :
    listCompare b a = -listCompare a b := by
  induction a generalizing b with
  | nil => cases b <;> simp [listCompare]
  | cons x xs ih =>
    cases b with
    | nil => simp [listCompare]
    | cons y ys =>
      simp only [listCompare]
      rcases lt_trichotomy x y with h | h | h
      · simp [h, lt_asymm h]
      · subst h
        simp [lt_irrefl, ih]
      · simp [h, lt_asymm h]

theorem listCompare_trans {a b c : List Char}
    (h1 : listCompare a b ≤ 0) (h2 : listCompare b c ≤ 0) :
    listCompare a c ≤ 0 := by
  induction a generalizing b c with
  | nil => cases c <;> simp [listCompare]
  | cons x xs ih =>
    cases b with
    | nil => simp [listCompare] at h1
    | cons y ys =>
      cases c with
      | nil => simp [listCompare] at h2
      | cons z zs =>
        simp only [listCompare] at h1 h2 ⊢
        rcases lt_trichotomy x y with hxy | hxy | hxy
        · rcases lt_trichotomy y z with hyz | hyz | hyz
          · simp [lt_trans hxy hyz]
          · subst hyz
            simp [hxy]
          · simp [hyz, lt_asymm hyz] at h2
        · subst hxy
          rcases lt_trichotomy x z with hxz | hxz | hxz
          · simp [hxz]
          · subst hxz
            simp [lt_irrefl] at h1 h2 ⊢
            exact ih h1 h2
          · simp [hxz, lt_asymm hxz] at h2
        · simp [hxy, lt_asymm hxy] at h1

theorem localeCompare_antisymm (a b : String) :
    localeCompare b a = -localeCompare a b :=
  listCompare_antisymm a.data b.data

theorem localeCompare_trans {a b c : String}
    (h1 : localeCompare a b ≤ 0) (h2 : localeCompare b c ≤ 0) :
    localeCompare a c ≤ 0 :=
  listCompare_trans h1 h2

theorem compareCharters_antisymm (k : SortKey) (a b : CharterSummary) :
    compareCharters k b a = -compareCharters k a b := by
  cases k with
  | title => exact localeCompare_antisymm a.title b.title
  | steward => exact localeCompare_antisymm (stewardName a) (stewardName b)
  | date => simp only [compareCharters]; omega

theorem compareCharters_trans (k : SortKey) {a b c : CharterSummary}
    (h1 : compareCharters k a b ≤ 0) (h2 : compareCharters k b c ≤ 0) :
    compareCharters k a c ≤ 0 := by
  cases k with
  | title => exact localeCompare_trans h1 h2
  | steward => exact localeCompare_trans h1 h2
  | date => simp only [compareCharters] at h1 h2 ⊢; omega

theorem comparator_antisymm (cfg : QueryConfig) (a b : CharterSummary) :
    comparator cfg b a = -comparator cfg a b := by
  cases hd : cfg.sortDirection <;>
    simp [comparator, hd, compareCharters_antisymm cfg.sortBy a b]

theorem comparator_total (cfg : QueryConfig) (a b : CharterSummary) :
    comparator cfg a b ≤ 0 ∨ comparator cfg b a ≤ 0 := by
  rw [comparator_antisymm]
  omega

theorem comparator_trans (cfg : QueryConfig) {a b c : CharterSummary}
    (h1 : comparator cfg a b ≤ 0) (h2 : comparator cfg b c ≤ 0) :
    comparator cfg a c ≤ 0 := by
  cases hd : cfg.sortDirection
  · simp only [comparator, hd] at h1 h2 ⊢
    exact compareCharters_trans cfg.sortBy h1 h2
  · simp only [comparator, hd, neg_nonpos] at h1 h2 ⊢
    have h1' : compareCharters cfg.sortBy b a ≤ 0 := by
      rw [compareCharters_antisymm]; omega
    have h2' : compareCharters cfg.sortBy c b ≤ 0 := by
      rw [compareCharters_antisymm]; omega
    have := compareCharters_trans cfg.sortBy h2' h1'
    rw [compareCharters_antisymm] at this
    omega

theorem comparator_tie_symm (cfg : QueryConfig) {a b : CharterSummary}
    (h : comparator cfg a b = 0) : comparator cfg b a = 0 := by
  rw [comparator_antisymm]
  omega

/-- The sorted output of the engine is pairwise arranged by the comparator. -/
theorem filterAndSort_pairwise (cs : List CharterSummary) (cfg : QueryConfig) :
    (filterAndSort (some cs) cfg).Pairwise fun a b => comparator cfg a b ≤ 0 :=
  sortCmp_pairwise (comparator cfg) (comparator_total cfg)
    (fun _ _ _ => comparator_trans cfg) (filteredInput cs cfg)

/-- Membership in the engine's output is membership in the filtered input. -/
theorem mem_filterAndSort {c : CharterSummary} {cs : List CharterSummary}
    {cfg : QueryConfig} :
    c ∈ filterAndSort (some cs) cfg ↔ c ∈ filteredInput cs cfg :=
  mem_sortCmp (comparator cfg)

end ComparatorLemmas

/-! Concrete fixtures used by witnesses and counterexamples. -/

/-- A sample owner profile. -/
def profileJane : Profile := Profile.mk "Jane" "Doe"

/-- A sample stakeholder in the engineering department. -/
def stakeholderEng : Stakeholder :=
  Stakeholder.mk "amy@example.com" "engineering" "contributor" none

/-- A sample charter titled "Alpha", created at time 10, with one
engineering stakeholder. -/
def charterA : CharterSummary :=
  CharterSummary.mk "a" "Alpha" none 10 none "u1" false [stakeholderEng]

/-- A sample charter titled "Beta", created at time 20, owned by Jane Doe,
with no stakeholders. -/
def charterB : CharterSummary :=
  CharterSummary.mk "b" "Beta" none 20 (some profileJane) "u2" false []

/-- C10: when the charters input is absent (`null`/`undefined`), the engine
returns the empty list for every `QueryConfig`, never raising and applying
no search, department-filter or sort step. -/
theorem C10_absent_input_yields_empty (cfg : QueryConfig) :
    filterAndSort none cfg = [] := rfl

/-- C1: with `sortKey = date` the base comparison between charters `a` and
`b` is `b.createdAt - a.createdAt` regardless of direction, the requested
direction is applied as a negation of that base value, and consequently an
`ascending` request yields newest-first (reverse-chronological) order while
a `descending` request yields oldest-first (chronological) order. -/
theorem C1_date_sort_reversed_semantics (cs : List CharterSummary)
    (cfg : QueryConfig) (hk : cfg.sortBy = SortKey.date) :
    (∀ a b, compareCharters SortKey.date a b = b.created_at - a.created_at)
    ∧ (∀ a b, comparator cfg a b =
        match cfg.sortDirection with
        | SortDirection.asc => b.created_at - a.created_at
        | SortDirection.desc => -(b.created_at - a.created_at))
    ∧ (cfg.sortDirection = SortDirection.asc →
        (filterAndSort (some cs) cfg).Pairwise
          fun x y => y.created_at ≤ x.created_at)
    ∧ (cfg.sortDirection = SortDirection.desc →
        (filterAndSort (some cs) cfg).Pairwise
          fun x y => x.created_at ≤ y.created_at) := by
  refine ⟨fun a b => rfl, ?_, ?_, ?_⟩
  · intro a b
    cases hd : cfg.sortDirection <;> simp [comparator, hk, hd, compareCharters]
  · intro hd
    refine (filterAndSort_pairwise cs cfg).imp ?_
    intro x y h
    simp only [comparator, hk, hd, compareCharters] at h
    omega
  · intro hd
    refine (filterAndSort_pairwise cs cfg).imp ?_
    intro x y h
    simp only [comparator, hk, hd, compareCharters] at h
    omega

/-- Witness for C1 at a concrete input: two charters, `date` key,
ascending direction. -/
theorem C1_date_sort_reversed_semantics_witness :
    (QueryConfig.mk "" "" SortKey.date SortDirection.asc).sortBy = SortKey.date
    ∧ ((∀ a b, compareCharters SortKey.date a b = b.created_at - a.created_at)
      ∧ (∀ a b, comparator (QueryConfig.mk "" "" SortKey.date SortDirection.asc) a b =
          match (QueryConfig.mk "" "" SortKey.date SortDirection.asc).sortDirection with
          | SortDirection.asc => b.created_at - a.created_at
          | SortDirection.desc => -(b.created_at - a.created_at))
      ∧ ((QueryConfig.mk "" "" SortKey.date SortDirection.asc).sortDirection =
            SortDirection.asc →
          (filterAndSort (some [charterA, charterB])
              (QueryConfig.mk "" "" SortKey.date SortDirection.asc)).Pairwise
            fun x y => y.created_at ≤ x.created_at)
      ∧ ((QueryConfig.mk "" "" SortKey.date SortDirection.asc).sortDirection =
            SortDirection.desc →
          (filterAndSort (some [charterA, charterB])
              (QueryConfig.mk "" "" SortKey.date SortDirection.asc)).Pairwise
            fun x y => x.created_at ≤ y.created_at)) :=
  ⟨rfl, C1_date_sort_reversed_semantics [charterA, charterB]
    (QueryConfig.mk "" "" SortKey.date SortDirection.asc) rfl⟩

/-- Case-insensitive substring containment, as worded by the spec:
`needle` occurs in `hay` ignoring letter case. -/
def ciContains (hay needle : String) : Prop :=
  strIncludes (strToLower hay) (strToLower needle) = true

/-- Spec-side search-retention condition, transcribed from the claim's
enumeration (C2) for comparison against the engine's own predicate: the
title, the description (when present), some stakeholder's email /
department / role / profile name, or the owner's profile name contains the
search text case-insensitively. -/
def searchSpec (searchText : String) (c : CharterSummary) : Prop :=
  ciContains c.title searchText
  ∨ (∃ d, c.description = some d ∧ ciContains d searchText)
  ∨ (∃ s ∈ c.stakeholders,
      ciContains s.email searchText
      ∨ ciContains s.department searchText
      ∨ ciContains s.role searchText
      ∨ ∃ p, s.profiles = some p
          ∧ ciContains (p.first_name ++ " " ++ p.last_name) searchText)
  ∨ (∃ p, c.profiles = some p
      ∧ ciContains (p.first_name ++ " " ++ p.last_name) searchText)

/-- The engine's search predicate coincides with the spec's enumerated
retention condition. -/
theorem charterMatchesSearch_iff (search : String) (c : CharterSummary) :
    charterMatchesSearch (strToLower search) c = true ↔ searchSpec search c := by
  simp only [charterMatchesSearch, searchSpec, ciContains, Bool.or_eq_true,
    List.any_eq_true, optMatch_eq_true, or_assoc]
  refine or_congr Iff.rfl (or_congr Iff.rfl (or_congr ?_ Iff.rfl))
  refine exists_congr fun s => and_congr_right fun _ => ?_
  constructor
  · rintro (h | h | h | h)
    · exact Or.inl h
    · exact Or.inr (Or.inl h)
    · exact Or.inr (Or.inr (Or.inr h))
    · exact Or.inr (Or.inr (Or.inl h))
  · rintro (h | h | h | h)
    · exact Or.inl h
    · exact Or.inr (Or.inl h)
    · exact Or.inr (Or.inr (Or.inr h))
    · exact Or.inr (Or.inr (Or.inl h))

/-- C2: with a non-empty `searchText`, a charter is retained by the search
step iff its title, its description (when present), some stakeholder's
email / department / role / profile name, or the owner's profile name
contains the search text as a case-insensitive substring; in particular a
search for "ENG" matches a charter with a stakeholder in department
"engineering". -/
theorem C2_search_retention_condition (cs : List CharterSummary)
    (cfg : QueryConfig) (hs : cfg.search ≠ "") :
    (∀ c, c ∈ searchStep cfg.search cs ↔ c ∈ cs ∧ searchSpec cfg.search c)
    ∧ charterA ∈ searchStep "ENG" [charterA] := by
  constructor
  · intro c
    unfold searchStep
    rw [if_pos hs, List.mem_filter, charterMatchesSearch_iff]
  · decide

/-- Witness for C2 at a concrete input: searching "ENG" over the two
sample charters retains exactly the charter with the engineering
stakeholder. -/
theorem C2_search_retention_condition_witness :
    (QueryConfig.mk "ENG" "" SortKey.title SortDirection.asc).search ≠ ""
    ∧ ((∀ c, c ∈ searchStep
          (QueryConfig.mk "ENG" "" SortKey.title SortDirection.asc).search
          [charterA, charterB] ↔
        c ∈ [charterA, charterB] ∧ searchSpec
          (QueryConfig.mk "ENG" "" SortKey.title SortDirection.asc).search c)
      ∧ charterA ∈ searchStep "ENG" [charterA]) :=
  ⟨by decide, C2_search_retention_condition [charterA, charterB]
    (QueryConfig.mk "ENG" "" SortKey.title SortDirection.asc) (by decide)⟩

/-- C3: with a non-empty `departmentFilter`, every charter of the output
has a stakeholder whose department equals the filter exactly, and every
input charter without such a stakeholder is absent from the output. -/
theorem C3_department_filter_exclusive (cs : List CharterSummary)
    (cfg : QueryConfig) (hdf : cfg.departmentFilter ≠ "") :
    (∀ c ∈ filterAndSort (some cs) cfg,
        ∃ s ∈ c.stakeholders, s.department = cfg.departmentFilter)
    ∧ (∀ c ∈ cs,
        (¬ ∃ s ∈ c.stakeholders, s.department = cfg.departmentFilter) →
        c ∉ filterAndSort (some cs) cfg) := by
  have main : ∀ c ∈ filterAndSort (some cs) cfg,
      ∃ s ∈ c.stakeholders, s.department = cfg.departmentFilter := by
    intro c hc
    rw [mem_filterAndSort] at hc
    unfold filteredInput departmentStep at hc
    rw [if_pos hdf] at hc
    have hp := (List.mem_filter.mp hc).2
    rw [List.any_eq_true] at hp
    obtain ⟨s, hs, hsd⟩ := hp
    exact ⟨s, hs, by simpa using hsd⟩
  exact ⟨main, fun c _ hno hmem => hno (main c hmem)⟩

/-- Witness for C3 at a concrete input: filter "engineering" over the two
sample charters. -/
theorem C3_department_filter_exclusive_witness :
    (QueryConfig.mk "" "engineering" SortKey.title SortDirection.asc).departmentFilter ≠ ""
    ∧ ((∀ c ∈ filterAndSort (some [charterA, charterB])
          (QueryConfig.mk "" "engineering" SortKey.title SortDirection.asc),
        ∃ s ∈ c.stakeholders, s.department =
          (QueryConfig.mk "" "engineering" SortKey.title SortDirection.asc).departmentFilter)
      ∧ (∀ c ∈ [charterA, charterB],
          (¬ ∃ s ∈ c.stakeholders, s.department =
            (QueryConfig.mk "" "engineering" SortKey.title SortDirection.asc).departmentFilter) →
          c ∉ filterAndSort (some [charterA, charterB])
            (QueryConfig.mk "" "engineering" SortKey.title SortDirection.asc))) :=
  ⟨by decide, C3_department_filter_exclusive [charterA, charterB]
    (QueryConfig.mk "" "engineering" SortKey.title SortDirection.asc) (by decide)⟩

/-- C4: with an empty `searchText`, the engine returns exactly the charters
passing the department filter, in sort order — the empty search excludes
nothing. -/
theorem C4_empty_search_excludes_nothing (cs : List CharterSummary)
    (cfg : QueryConfig) (hs : cfg.search = "") :
    filterAndSort (some cs) cfg =
      sortCmp (comparator cfg) (departmentStep cfg.departmentFilter cs)
    ∧ List.Perm (filterAndSort (some cs) cfg)
        (departmentStep cfg.departmentFilter cs)
    ∧ (filterAndSort (some cs) cfg).Pairwise
        fun a b => comparator cfg a b ≤ 0 := by
  have hsearch : searchStep cfg.search cs = cs := by
    simp [searchStep, hs]
  have heq : filterAndSort (some cs) cfg =
      sortCmp (comparator cfg) (departmentStep cfg.departmentFilter cs) := by
    show sortCmp (comparator cfg)
      (departmentStep cfg.departmentFilter (searchStep cfg.search cs)) = _
    rw [hsearch]
  refine ⟨heq, ?_, filterAndSort_pairwise cs cfg⟩
  rw [heq]
  exact sortCmp_perm (comparator cfg) _

/-- Witness for C4 at a concrete input. -/
theorem C4_empty_search_excludes_nothing_witness :
    (QueryConfig.mk "" "" SortKey.title SortDirection.asc).search = ""
    ∧ (filterAndSort (some [charterA, charterB])
          (QueryConfig.mk "" "" SortKey.title SortDirection.asc) =
        sortCmp (comparator (QueryConfig.mk "" "" SortKey.title SortDirection.asc))
          (departmentStep
            (QueryConfig.mk "" "" SortKey.title SortDirection.asc).departmentFilter
            [charterA, charterB])
      ∧ List.Perm (filterAndSort (some [charterA, charterB])
            (QueryConfig.mk "" "" SortKey.title SortDirection.asc))
          (departmentStep
            (QueryConfig.mk "" "" SortKey.title SortDirection.asc).departmentFilter
            [charterA, charterB])
      ∧ (filterAndSort (some [charterA, charterB])
            (QueryConfig.mk "" "" SortKey.title SortDirection.asc)).Pairwise
          fun a b =>
            comparator (QueryConfig.mk "" "" SortKey.title SortDirection.asc) a b ≤ 0) :=
  ⟨rfl, C4_empty_search_excludes_nothing [charterA, charterB]
    (QueryConfig.mk "" "" SortKey.title SortDirection.asc) rfl⟩

/-- C7: with `sortKey = steward`, charters are ordered by string comparison
of the trimmed `"firstName lastName"` of each charter's owner profile, the
empty string standing in for a missing profile, the comparison negated when
the direction is `descending`. -/
theorem C7_steward_sort_semantics (cs : List CharterSummary)
    (cfg : QueryConfig) (hk : cfg.sortBy = SortKey.steward) :
    (∀ c p, c.profiles = some p →
        stewardName c = jsTrim (p.first_name ++ " " ++ p.last_name))
    ∧ (∀ c, c.profiles = none → stewardName c = "")
    ∧ (∀ a b, comparator cfg a b =
        match cfg.sortDirection with
        | SortDirection.asc => localeCompare (stewardName a) (stewardName b)
        | SortDirection.desc => -localeCompare (stewardName a) (stewardName b))
    ∧ (cfg.sortDirection = SortDirection.asc →
        (filterAndSort (some cs) cfg).Pairwise
          fun x y => localeCompare (stewardName x) (stewardName y) ≤ 0)
    ∧ (cfg.sortDirection = SortDirection.desc →
        (filterAndSort (some cs) cfg).Pairwise
          fun x y => localeCompare (stewardName y) (stewardName x) ≤ 0) := by
  refine ⟨?_, ?_, ?_, ?_, ?_⟩
  · intro c p hp
    simp [stewardName, hp]
  · intro c hp
    simp [stewardName, hp]
  · intro a b
    cases hd : cfg.sortDirection <;> simp [comparator, hk, hd, compareCharters]
  · intro hd
    refine (filterAndSort_pairwise cs cfg).imp ?_
    intro x y h
    simpa only [comparator, hk, hd, compareCharters] using h
  · intro hd
    refine (filterAndSort_pairwise cs cfg).imp ?_
    intro x y h
    simp only [comparator, hk, hd, compareCharters] at h
    rw [localeCompare_antisymm]
    omega

/-- Witness for C7 at a concrete input: two charters, `steward` key,
ascending direction. -/
theorem C7_steward_sort_semantics_witness :
    (QueryConfig.mk "" "" SortKey.steward SortDirection.asc).sortBy = SortKey.steward
    ∧ ((∀ c p, c.profiles = some p →
          stewardName c = jsTrim (p.first_name ++ " " ++ p.last_name))
      ∧ (∀ c, c.profiles = none → stewardName c = "")
      ∧ (∀ a b, comparator (QueryConfig.mk "" "" SortKey.steward SortDirection.asc) a b =
          match (QueryConfig.mk "" "" SortKey.steward SortDirection.asc).sortDirection with
          | SortDirection.asc => localeCompare (stewardName a) (stewardName b)
          | SortDirection.desc => -localeCompare (stewardName a) (stewardName b))
      ∧ ((QueryConfig.mk "" "" SortKey.steward SortDirection.asc).sortDirection =
            SortDirection.asc →
          (filterAndSort (some [charterA, charterB])
              (QueryConfig.mk "" "" SortKey.steward SortDirection.asc)).Pairwise
            fun x y => localeCompare (stewardName x) (stewardName y) ≤ 0)
      ∧ ((QueryConfig.mk "" "" SortKey.steward SortDirection.asc).sortDirection =
            SortDirection.desc →
          (filterAndSort (some [charterA, charterB])
              (QueryConfig.mk "" "" SortKey.steward SortDirection.asc)).Pairwise
            fun x y => localeCompare (stewardName y) (stewardName x) ≤ 0)) :=
  ⟨rfl, C7_steward_sort_semantics [charterA, charterB]
    (QueryConfig.mk "" "" SortKey.steward SortDirection.asc) rfl⟩

/-- C5: the sort is stable — tagging the filtered input with its positions
and sorting by the same comparator (ignoring the tags) projects back to the
engine's output, and whenever two entries compare equal the smaller
original position comes first. -/
theorem C5_sort_stable (cs : List CharterSummary) (cfg : QueryConfig) :
    ((sortCmp (fun a b => comparator cfg a.2 b.2)
        (withIdx 0 (filteredInput cs cfg))).map Prod.snd =
      filterAndSort (some cs) cfg)
    ∧ (sortCmp (fun a b => comparator cfg a.2 b.2)
        (withIdx 0 (filteredInput cs cfg))).Pairwise
        fun a b => comparator cfg a.2 b.2 = 0 → a.1 < b.1 := by
  constructor
  · rw [map_sortCmp (comparator cfg) Prod.snd, withIdx_map_snd]
    rfl
  · exact sortCmp_stable (comparator cfg)
      (fun a b h => comparator_tie_symm cfg h)
      (withIdx_pairwise 0 (filteredInput cs cfg))

theorem mem_searchStep_sub {c : CharterSummary} {s : String}
    {l : List CharterSummary} (h : c ∈ searchStep s l) : c ∈ l := by
  unfold searchStep at h
  split at h
  · exact (List.mem_filter.mp h).1
  · exact h

theorem mem_departmentStep_sub {c : CharterSummary} {df : String}
    {l : List CharterSummary} (h : c ∈ departmentStep df l) : c ∈ l := by
  unfold departmentStep at h
  split at h
  · exact (List.mem_filter.mp h).1
  · exact h

theorem mem_searchStep_match {c : CharterSummary} {s : String}
    {l : List CharterSummary} (hs : s ≠ "") (h : c ∈ searchStep s l) :
    charterMatchesSearch (strToLower s) c = true := by
  unfold searchStep at h
  rw [if_pos hs] at h
  exact (List.mem_filter.mp h).2

theorem mem_departmentStep_match {c : CharterSummary} {df : String}
    {l : List CharterSummary} (hdf : df ≠ "") (h : c ∈ departmentStep df l) :
    (c.stakeholders.any fun s => s.department == df) = true := by
  unfold departmentStep at h
  rw [if_pos hdf] at h
  exact (List.mem_filter.mp h).2

/-- C6: the engine is deterministic and referentially transparent — equal
inputs give equal outputs, and re-running the engine on its own output
(with the same configuration) reproduces that output unchanged. -/
theorem C6_deterministic_and_idempotent (charters : Option (List CharterSummary))
    (cfg : QueryConfig) :
    filterAndSort charters cfg = filterAndSort charters cfg
    ∧ filterAndSort (some (filterAndSort charters cfg)) cfg =
        filterAndSort charters cfg := by
  refine ⟨rfl, ?_⟩
  cases charters with
  | none =>
    have h1 : searchStep cfg.search ([] : List CharterSummary) = [] := by
      unfold searchStep
      split <;> simp
    have h2 : departmentStep cfg.departmentFilter ([] : List CharterSummary) = [] := by
      unfold departmentStep
      split <;> simp
    show sortCmp (comparator cfg)
      (departmentStep cfg.departmentFilter (searchStep cfg.search [])) = []
    rw [h1, h2]
    rfl
  | some cs =>
    have hmem : ∀ c ∈ filterAndSort (some cs) cfg, c ∈ filteredInput cs cfg :=
      fun c hc => mem_filterAndSort.mp hc
    have hsearch : searchStep cfg.search (filterAndSort (some cs) cfg) =
        filterAndSort (some cs) cfg := by
      by_cases hs : cfg.search = ""
      · simp [searchStep, hs]
      · unfold searchStep
        rw [if_pos hs, List.filter_eq_self]
        intro c hc
        exact mem_searchStep_match hs (mem_departmentStep_sub (hmem c hc))
    have hdept : departmentStep cfg.departmentFilter (filterAndSort (some cs) cfg) =
        filterAndSort (some cs) cfg := by
      by_cases hdf : cfg.departmentFilter = ""
      · simp [departmentStep, hdf]
      · unfold departmentStep
        rw [if_pos hdf, List.filter_eq_self]
        intro c hc
        exact mem_departmentStep_match hdf (hmem c hc)
    show sortCmp (comparator cfg)
      (departmentStep cfg.departmentFilter
        (searchStep cfg.search (filterAndSort (some cs) cfg))) = _
    rw [hsearch, hdept]
    exact sortCmp_eq_self (comparator cfg) (filterAndSort_pairwise cs cfg)

theorem strToLower_eq_empty_iff (s : String) : strToLower s = "" ↔ s = "" := by
  cases s with
  | mk d =>
    constructor
    · intro h
      have hd : d.map Char.toLower = ([] : List Char) := congrArg String.data h
      have hnil : d = [] := by
        cases d
        · rfl
        · simp at hd
      rw [hnil]
    · intro h
      rw [h]
      rfl

/-- Counterexample to C9 as stated: searching for `"Alpha "` (trailing
space) over a charter titled "Alpha" returns nothing, while searching for
the trimmed text returns the charter — the engine does not trim the search
text. -/
theorem C9_trim_counterexample :
    ¬ (filterAndSort (some [charterA])
        (QueryConfig.mk "Alpha " "" SortKey.title SortDirection.asc) =
      filterAndSort (some [charterA])
        (QueryConfig.mk (jsTrim "Alpha ") "" SortKey.title SortDirection.asc)) := by
  decide

/-- C9 (amended): the engine uses `searchText` verbatim — surrounding
whitespace is significant — and the invariance that does hold is
case-insensitivity: two search texts with the same lowercase folding
produce identical results. -/
theorem C9_search_case_fold_invariance
    (charters : Option (List CharterSummary)) (df : String) (k : SortKey)
    (d : SortDirection) (s t : String) (h : strToLower s = strToLower t) :
    filterAndSort charters (QueryConfig.mk s df k d) =
      filterAndSort charters (QueryConfig.mk t df k d) := by
  cases charters with
  | none => rfl
  | some cs =>
    have hstep : searchStep s cs = searchStep t cs := by
      by_cases hs : s = ""
      · have ht : t = "" := by
          rw [← strToLower_eq_empty_iff, ← h, hs]
          rfl
        rw [hs, ht]
      · have ht : t ≠ "" := by
          intro hteq
          apply hs
          rw [← strToLower_eq_empty_iff, h, hteq]
          rfl
        unfold searchStep
        rw [if_pos hs, if_pos ht, h]
    show sortCmp (comparator (QueryConfig.mk s df k d))
        (departmentStep df (searchStep s cs)) =
      sortCmp (comparator (QueryConfig.mk t df k d))
        (departmentStep df (searchStep t cs))
    rw [hstep]
    rfl

/-- Witness for the amended C9 at a concrete input: "ENG" and "eNg" fold
to the same lowercase text and give the same output. -/
theorem C9_search_case_fold_invariance_witness :
    strToLower "ENG" = strToLower "eNg"
    ∧ filterAndSort (some [charterA])
        (QueryConfig.mk "ENG" "" SortKey.title SortDirection.asc) =
      filterAndSort (some [charterA])
        (QueryConfig.mk "eNg" "" SortKey.title SortDirection.asc) :=
  ⟨by decide, C9_search_case_fold_invariance (some [charterA]) ""
    SortKey.title SortDirection.asc "ENG" "eNg" (by decide)⟩

end Charters
